import Mathlib

/-!
A shallow embedding of `rosterbot.py` (shift tracking and escalation bot).

Conventions of the embedding:

* Timestamps are `Int` seconds since the Unix epoch (UTC).  Python's
  `datetime.minute` / `datetime.hour` on a UTC timestamp `t` are
  `(t // 60) % 60` and `(t // 3600) % 24`; Python's floor division and
  modulus on a positive divisor coincide with `Int.ediv` / `Int.emod`.
* Conditions of the form `secs / 60.0 >= m` (resp. `> m`) from the source
  are embedded in the exactly equivalent integer-scaled form
  `60 * m <= secs` (resp. `60 * m < secs`), keeping every definition
  kernel-computable.
* `tutors_dict` maps keys of type `Option String` because the source can
  use `None` (a failed name extraction) as a dictionary key.
* Python dictionaries that the source iterates over (`already_announced`)
  are modelled as insertion-ordered association lists with unique keys;
  dictionaries only used pointwise (`msg_id_to_watch`, `tutors_dict`, the
  redis hash) are modelled as functions to `Option`.
* Exceptions (`KeyError` from `del d[k]` / `d[k]`, `AttributeError` from
  `None.encode`) are modelled explicitly: a handler or poll tick returns
  the state reached at the moment of the raise together with the error.
* Outbound Slack messages are modelled as tags recording which send site
  fired and its identifying payload; message text itself is not modelled.

The bot runs with `args.test = False` (production constants).
-/

/-- Production configuration constants from the source
(`args.test = False` branch of `a and x or y`). -/
def MINUTES_NOUSERS : Int := 20

/-- `MINUTES_NOTIFY`: announce a shift when it starts within this many minutes. -/
def MINUTES_NOTIFY : Int := 10

/-- `MINUTES_DANGER`: escalate when an unacknowledged shift starts within
this many minutes. -/
def MINUTES_DANGER : Int := 1

/-- `CHALLENGE_TIME_OFFSET = 10`, fixed hour offset. -/
def CHALLENGE_TIME_OFFSET : Int := 10

/-- `UTCHOURS_ACTIVE_START = (8 - CHALLENGE_TIME_OFFSET) % 24` (= 22). -/
def UTCHOURS_ACTIVE_START : Int := (8 - CHALLENGE_TIME_OFFSET).emod 24

/-- `UTCHOURS_ACTIVE_END = (21 - CHALLENGE_TIME_OFFSET) % 24` (= 11). -/
def UTCHOURS_ACTIVE_END : Int := (21 - CHALLENGE_TIME_OFFSET).emod 24

/-- `datetime.minute` of a UTC epoch timestamp. -/
def minuteOf (t : Int) : Int := (t.ediv 60).emod 60

/-- `datetime.hour` of a UTC epoch timestamp. -/
def hourOf (t : Int) : Int := (t.ediv 3600).emod 24

/-- `is_checked_hour(hour)` from the source. -/
def is_checked_hour (hour : Int) : Bool :=
  if UTCHOURS_ACTIVE_START > UTCHOURS_ACTIVE_END then
    hour ≥ UTCHOURS_ACTIVE_START || hour < UTCHOURS_ACTIVE_END
  else
    hour ≥ UTCHOURS_ACTIVE_START && hour < UTCHOURS_ACTIVE_END

/-- A calendar event as delivered by `icalevents` (already parsed):
start/end timestamps, free-form summary, unreliable source uid. -/
structure CalEvent where
  start : Int
  end_ : Int
  summary : String
  uid : String
deriving DecidableEq, Repr

/-- `calid = '{}-{}'.format(next_tutor_cal.start, next_tutor_cal.summary)`:
the derived ShiftIdentity key (start time plus summary; the uid is unused). -/
def calidOf (ev : CalEvent) : String := toString ev.start ++ "-" ++ ev.summary

/-- An entry of `msg_id_to_watch`: `{'sourcename': name, 'calid': calid}`.
`sourcename` is `none` when name extraction failed. -/
structure WatchEntry where
  sourcename : Option String
  calid : String
deriving DecidableEq, Repr

/-- An entry of `already_announced`:
`{'cal': ..., 'msgid': ..., 'acked': ...}`. -/
structure AnnEntry where
  cal : CalEvent
  msgid : String
  acked : Bool
deriving DecidableEq, Repr

/-- The mutable global state of the bot: `tutors_dict`, `msg_id_to_watch`,
`already_announced`, `checked_hour`, and the persisted redis hash
(`rosterbot:amended_realnametoslack`, name ↦ slackid). -/
structure RState where
  tutors : Option String → Option String
  watch : String → Option WatchEntry
  announced : List (String × AnnEntry)
  checked_hour : Option Int
  kv : String → Option String

/-- Tags for the outbound messages the bot can send (one per send site). -/
inductive Sent where
  | announce (calid : String) (slackid : Option String) (name : Option String)
  | coverage (localHour : Int)
  | ackThanks (userid : String) (threadid : String)
  | correlThanks (name : String) (foundid : String) (threadid : String)
  | escalate (msgid : String)
deriving DecidableEq, Repr

/-- The Python exceptions the embedded code can raise. -/
inductive PyErr where
  | keyError
  | attrError
deriving DecidableEq, Repr

/-- Result of running a handler or a poll tick: the state reached (at the
point of a raise, if any), the messages sent so far, and the escaped
exception, if any. -/
structure TickResult where
  st : RState
  sent : List Sent
  err : Option PyErr

/-- Pointwise update of an `Option String`-keyed dictionary
(`d[k] = v` on `tutors_dict`). -/
def dictSet (d : Option String → Option String) (k : Option String) (v : String) :
    Option String → Option String :=
  fun q => if q = k then some v else d q

/-- Lookup in an insertion-ordered association list (`d[k]` / `d.get(k)`). -/
def lookupA : List (String × AnnEntry) → String → Option AnnEntry
  | [], _ => none
  | p :: rest, k => if p.1 = k then some p.2 else lookupA rest k

/-- `d[k] = v` on an insertion-ordered dictionary: overwrite in place if the
key exists, else append. -/
def insertA (l : List (String × AnnEntry)) (k : String) (v : AnnEntry) :
    List (String × AnnEntry) :=
  if (lookupA l k).isSome then
    l.map (fun p => if p.1 = k then (k, v) else p)
  else l ++ [(k, v)]

/-- `del d[k]` on an insertion-ordered dictionary (the key is present at
every call site where this is used). -/
def deleteA (l : List (String × AnnEntry)) (k : String) : List (String × AnnEntry) :=
  l.filter (fun p => p.1 ≠ k)

/-- `already_announced[calid]['acked'] = True`, given the entry exists. -/
def setAcked (l : List (String × AnnEntry)) (k : String) : List (String × AnnEntry) :=
  l.map (fun p => if p.1 = k then (p.1, { p.2 with acked := true }) else p)

@[simp]
theorem lookupA_nil (k : String) : lookupA [] k = none := rfl

@[simp]
theorem lookupA_cons (p : String × AnnEntry) (rest : List (String × AnnEntry)) (k : String) :
    lookupA (p :: rest) k = if p.1 = k then some p.2 else lookupA rest k := rfl

theorem lookupA_append (l₁ l₂ : List (String × AnnEntry)) (k : String) :
    lookupA (l₁ ++ l₂) k =
      match lookupA l₁ k with
      | some v => some v
      | none => lookupA l₂ k := by
  induction l₁ with
  | nil => simp
  | cons p rest ih =>
    by_cases h : p.1 = k <;> simp [h, ih]

theorem lookupA_map_overwrite (l : List (String × AnnEntry)) (k : String) (v : AnnEntry)
    (h : (lookupA l k).isSome) :
    lookupA (l.map (fun p => if p.1 = k then (k, v) else p)) k = some v := by
  induction l with
  | nil => simp at h
  | cons p rest ih =>
    by_cases hp : p.1 = k
    · simp [hp]
    · simp only [lookupA_cons, hp, if_false] at h
      simp [hp, ih h]

theorem lookupA_map_overwrite_ne (l : List (String × AnnEntry)) (k k' : String) (v : AnnEntry)
    (h : k ≠ k') :
    lookupA (l.map (fun p => if p.1 = k then (k, v) else p)) k' = lookupA l k' := by
  induction l with
  | nil => rfl
  | cons p rest ih =>
    by_cases hp : p.1 = k
    · have hne : ¬ p.1 = k' := by rw [hp]; exact h
      simp [hp, h, hne, ih]
    · by_cases hp' : p.1 = k'
      · simp [hp, hp', Ne.symm h]
      · simp [hp, hp', ih]

theorem lookupA_insertA_self (l : List (String × AnnEntry)) (k : String) (v : AnnEntry) :
    lookupA (insertA l k v) k = some v := by
  unfold insertA
  cases hl : lookupA l k with
  | some w =>
    simp only [hl, Option.isSome_some, if_true]
    exact lookupA_map_overwrite l k v (by simp [hl])
  | none =>
    simp [hl, lookupA_append]

theorem lookupA_insertA_ne (l : List (String × AnnEntry)) (k k' : String) (v : AnnEntry)
    (h : k ≠ k') : lookupA (insertA l k v) k' = lookupA l k' := by
  unfold insertA
  cases hl : lookupA l k with
  | some w =>
    simp only [hl, Option.isSome_some, if_true]
    exact lookupA_map_overwrite_ne l k k' v h
  | none =>
    simp only [hl, Option.isSome_none, Bool.false_eq_true, if_false, lookupA_append]
    cases hl' : lookupA l k' with
    | some v' => simp
    | none => simp [h]

theorem lookupA_deleteA_self (l : List (String × AnnEntry)) (k : String) :
    lookupA (deleteA l k) k = none := by
  induction l with
  | nil => rfl
  | cons p rest ih =>
    by_cases hp : p.1 = k
    · simpa [deleteA, hp] using ih
    · simpa [deleteA, hp] using ih

theorem lookupA_deleteA_ne (l : List (String × AnnEntry)) (k k' : String) (h : k ≠ k') :
    lookupA (deleteA l k) k' = lookupA l k' := by
  induction l with
  | nil => rfl
  | cons p rest ih =>
    by_cases hp : p.1 = k
    · have hne : ¬ p.1 = k' := by rw [hp]; exact h
      simpa [deleteA, hp, hne, h] using ih
    · by_cases hp' : p.1 = k'
      · simp [deleteA, hp, hp', Ne.symm h]
      · simpa [deleteA, hp, hp'] using ih

theorem lookupA_setAcked_self (l : List (String × AnnEntry)) (k : String) (e : AnnEntry)
    (h : lookupA l k = some e) :
    lookupA (setAcked l k) k = some { e with acked := true } := by
  induction l with
  | nil => simp at h
  | cons p rest ih =>
    by_cases hp : p.1 = k
    · simp only [lookupA_cons, hp, if_true] at h
      cases h
      simp [setAcked, hp]
    · simp only [lookupA_cons, hp, if_false] at h
      simpa [setAcked, hp] using ih h

theorem lookupA_setAcked_ne (l : List (String × AnnEntry)) (k k' : String) (h : k ≠ k') :
    lookupA (setAcked l k) k' = lookupA l k' := by
  induction l with
  | nil => rfl
  | cons p rest ih =>
    by_cases hp : p.1 = k
    · have hne : ¬ p.1 = k' := by rw [hp]; exact h
      simpa [setAcked, hp, hne, h] using ih
    · by_cases hp' : p.1 = k'
      · simp [setAcked, hp, hp', Ne.symm h]
      · simpa [setAcked, hp, hp'] using ih

/-- The two replacements `summary.replace(chr(65288), '(')` and
`summary.replace(chr(65289), ')')`: each replaces a single character by a
single character, so their composition is this character-wise map. -/
def normalizeParens (l : List Char) : List Char :=
  l.map (fun c =>
    if c = Char.ofNat 65288 then '(' else if c = Char.ofNat 65289 then ')' else c)

/-- The attempt of `re.search(r'\((.*)\)', s)` at a fixed position, applied to
the text after the opening parenthesis: `.*` is greedy and does not cross a
newline, so the match succeeds iff the longest newline-free segment after the
`(` contains a `)`, and the group runs up to the last such `)`. -/
def greedyGroup (l : List Char) : Option (List Char) :=
  match ((l.takeWhile (fun c => c ≠ '\n')).reverse.dropWhile (fun c => c ≠ ')')) with
  | [] => none
  | _ :: rest => some rest.reverse

/-- `re.search(r'\((.*)\)', s)`: try every start position from the left; at a
position the pattern requires an opening `(` followed by a greedy match. -/
def reSearchParen : List Char → Option (List Char)
  | [] => none
  | c :: rest =>
    if c = '(' then
      match greedyGroup rest with
      | some g => some g
      | none => reSearchParen rest
    else reSearchParen rest

/-- `extract_name_from_cal`: normalize fullwidth parentheses, then
`re.search(r'\((.*)\)', summary)`; returns group 1, or `None` if no match. -/
def extract_name_from_cal (summary : String) : Option String :=
  (reSearchParen (normalizeParens summary.data)).map (fun l => String.mk l)

/-- Modelled from the spec: the content of the LAST parenthesised group of
the text, i.e. the text between the last `(` that is followed by a `)` and
the first `)` after it.  This is what the spec's phrase "last parenthesised
group" denotes; used only to compare against `extract_name_from_cal`. -/
def lastParenGroupL : List Char → Option (List Char)
  | [] => none
  | c :: rest =>
    match lastParenGroupL rest with
    | some g => some g
    | none =>
      if c = '(' && rest.contains ')' then some (rest.takeWhile (fun d => d ≠ ')'))
      else none

/-- Modelled from the spec: `lastParenGroupL` on a string, after the same
fullwidth-parenthesis normalization the code performs. -/
def lastParenGroup (summary : String) : Option String :=
  (lastParenGroupL (normalizeParens summary.data)).map (fun l => String.mk l)

/-- A character matched by `\w` (ASCII core: letters, digits, underscore). -/
def isWordChar (c : Char) : Bool := c.isAlphanum || c = '_'

/-- `RE_SLACKID.match(text)` where `RE_SLACKID = re.compile('<@(\w+)>')`:
`re.match` anchors at the START of the text; the greedy `\w+` takes the
maximal run of word characters, which must be nonempty and followed by `>`.
Returns group 1 (the user id). -/
def reMatchSlackIdL : List Char → Option String
  | '<' :: '@' :: rest =>
    match rest.takeWhile isWordChar with
    | [] => none
    | w =>
      match rest.drop w.length with
      | '>' :: _ => some (String.mk w)
      | _ => none
  | _ => none

/-- `RE_SLACKID.match` on a string. -/
def reMatchSlackId (text : String) : Option String := reMatchSlackIdL text.data

/-- Modelled from the spec: the reply text CONTAINS a recognizable
self-mention token somewhere (not necessarily at the start).  Used only to
compare against the code's anchored `RE_SLACKID.match`. -/
def specContainsMention : List Char → Bool
  | [] => false
  | c :: rest => (reMatchSlackIdL (c :: rest)).isSome || specContainsMention rest

/-- `get_pending_tutor_cals(now)`: sort the fetched events by the key
`now - ev.start` descending (`reverse=True`), i.e. by ascending start, then
keep those with `(ev.start - now).total_seconds() > 0`. -/
def get_pending_tutor_cals (now : Int) (evs : List CalEvent) : List CalEvent :=
  (List.insertionSort (fun e1 e2 => now - e2.start ≤ now - e1.start) evs).filter
    (fun ev => 0 < ev.start - now)

/-- A Slack member record as used by `add_tutor`:
`member['id']`, `member['name']`, `member.get('real_name', ...)`. -/
structure Member where
  id : String
  name : String
  real_name : Option String
deriving DecidableEq, Repr

/-- `member.get('real_name', member['name'])`. -/
def realNameOf (member : Member) : String := member.real_name.getD member.name

/-- `add_tutor(member)`: register the member's real name only if no mapping
exists yet (`if real_name not in tutors_dict`). -/
def add_tutor (d : Option String → Option String) (member : Member) :
    Option String → Option String :=
  match d (some (realNameOf member)) with
  | some _ => d
  | none => dictSet d (some (realNameOf member)) member.id

/-- `load_tutors_dict()`: `add_tutor` over the member directory, then the
persisted overrides from `r.hgetall(AMENDED_REALNAMETOSLACK_KEY)`, each of
which is written unconditionally (`tutors_dict[real_name] = slackid`). -/
def load_tutors_dict (d : Option String → Option String) (members : List Member)
    (pairs : List (String × String)) : Option String → Option String :=
  (pairs.foldl (fun acc p => dictSet acc (some p.1) p.2) (members.foldl add_tutor d))

/-- `rtm_reaction_added(data)`: look up the reacted-to message id in
`msg_id_to_watch`; require the reacting user to equal
`tutors_dict.get(prev_msg['sourcename'], '')`; on match, delete the watch,
set `acked` on `already_announced[calid]` (a bare index: `KeyError` if the
record is gone), and send a threaded thanks. -/
def rtm_reaction_added (st : RState) (msgid userid : String) : TickResult :=
  match st.watch msgid with
  | none => ⟨st, [], none⟩
  | some prev_msg =>
    if ((st.tutors prev_msg.sourcename).getD "") ≠ userid then ⟨st, [], none⟩
    else
      let watch2 := fun k => if k = msgid then none else st.watch k
      match lookupA st.announced prev_msg.calid with
      | none => ⟨{ st with watch := watch2 }, [], some PyErr.keyError⟩
      | some _ =>
        ⟨{ st with watch := watch2, announced := setAcked st.announced prev_msg.calid },
         [Sent.ackThanks userid msgid], none⟩

/-- `rtm_message(data)`: only threaded replies to a watched thread are
considered; `RE_SLACKID.match(event['text'])` (anchored at the start) must
produce a user id; then `tutors_dict[data['sourcename']] = foundid` (the key
may be `None`), then `r.hset(..., data['sourcename'].encode('utf-8'), ...)`
which raises `AttributeError` when the stored name is `None` — after the
in-memory write, before the persist and before the confirmation. -/
def rtm_message (st : RState) (thread_ts : Option String) (text : String) : TickResult :=
  match thread_ts with
  | none => ⟨st, [], none⟩
  | some threadid =>
    match st.watch threadid with
    | none => ⟨st, [], none⟩
    | some data =>
      match reMatchSlackId text with
      | none => ⟨st, [], none⟩
      | some foundid =>
        let tutors2 := dictSet st.tutors data.sourcename foundid
        match data.sourcename with
        | none => ⟨{ st with tutors := tutors2 }, [], some PyErr.attrError⟩
        | some nm =>
          let kv2 := fun k => if k = nm then some foundid else st.kv k
          ⟨{ st with tutors := tutors2, kv := kv2 },
           [Sent.correlThanks nm foundid threadid], none⟩

/-- Running state of the single pass over pending events in
`process_calendar` (lines 292–323): the global state, the
`notify_missing_tutors` flag, the number of messages sent so far by this
pass (indexing the fresh-message-id supply), and the sends so far. -/
structure AnnSt where
  st : RState
  notify : Bool
  k : Nat
  sent : List Sent

/-- `if next_tutor_cal.start.hour == next_check_hour: notify_missing_tutors
= False` — the per-event coverage check, performed before the notify-window
break. -/
def hourUpd (nch : Int) (ev : CalEvent) (a : AnnSt) : AnnSt :=
  if hourOf ev.start = nch then { a with notify := false } else a

/-- Lines 305–323: announce one event (its calid is known fresh): send the
notification (`message_tutor`), watch the returned message id, and record
the announcement.  `ids a.k` is the fresh message id Slack returns. -/
def announceStep (ids : Nat → String) (ev : CalEvent) (a : AnnSt) : AnnSt :=
  let name := extract_name_from_cal ev.summary
  let mid := ids a.k
  let watch2 := fun k => if k = mid then some (WatchEntry.mk name (calidOf ev)) else a.st.watch k
  let ann2 := insertA a.st.announced (calidOf ev) (AnnEntry.mk ev mid false)
  { st := { a.st with watch := watch2, announced := ann2 },
    notify := a.notify,
    k := a.k + 1,
    sent := a.sent ++ [Sent.announce (calidOf ev) (a.st.tutors name) name] }

/-- The `for next_tutor_cal in pending` loop (lines 292–323): per event,
the coverage-hour check, then `break` once `in_minutes >= MINUTES_NOTIFY`
(embedded as `60 * MINUTES_NOTIFY <= start - now`), then the
already-announced guard, then the announcement. -/
def annLoop (now nch : Int) (ids : Nat → String) : List CalEvent → AnnSt → AnnSt
  | [], a => a
  | ev :: rest, a =>
    if 60 * MINUTES_NOTIFY ≤ ev.start - now then hourUpd nch ev a
    else if (lookupA (hourUpd nch ev a).st.announced (calidOf ev)).isSome then
      annLoop now nch ids rest (hourUpd nch ev a)
    else
      annLoop now nch ids rest (announceStep ids ev (hourUpd nch ev a))

/-- One iteration of the expiry/escalation loop (lines 343–369) for the key
`calid` from the snapshot of `already_announced` keys.  A previously raised
exception aborts the rest of the loop (`acc.err.isSome`).  Expiry
(`cal.end < now`) deletes the record, then runs `del msg_id_to_watch[msgid]`
— a bare `del`, raising `KeyError` when the watch is already gone.
Otherwise: skip if acked, skip if unwatched, skip if
`minutes_away > MINUTES_DANGER` (embedded as `60 * MINUTES_DANGER < start -
now`), else send the escalation ping and delete the watch. -/
def processRecord (now : Int) (acc : TickResult) (calid : String) : TickResult :=
  if acc.err.isSome then acc
  else
    match lookupA acc.st.announced calid with
    | none => { acc with err := some PyErr.keyError }
    | some data =>
      if data.cal.end_ < now then
        let ann2 := deleteA acc.st.announced calid
        match acc.st.watch data.msgid with
        | some _ =>
          let watch2 := fun k => if k = data.msgid then none else acc.st.watch k
          { acc with st := { acc.st with announced := ann2, watch := watch2 } }
        | none =>
          { st := { acc.st with announced := ann2 }, sent := acc.sent,
            err := some PyErr.keyError }
      else if data.acked then acc
      else
        match acc.st.watch data.msgid with
        | none => acc
        | some _ =>
          if 60 * MINUTES_DANGER < data.cal.start - now then acc
          else
            let watch2 := fun k => if k = data.msgid then none else acc.st.watch k
            { st := { acc.st with watch := watch2 },
              sent := acc.sent ++ [Sent.escalate data.msgid], err := none }

/-- `process_calendar()`, one poll tick: the `START_DATETIME` gate, the
coverage-hour precheck (lines 281–288), the pass over pending events, the
coverage warning send (lines 325–341, using the `checked_hour` global), and
the expiry/escalation loop over `list(already_announced.keys())`.
`evs` is the already-parsed event list `get_events()` returns and `ids` the
supply of message ids Slack returns for this tick's sends. -/
def process_calendar (START_DATETIME : Int) (st : RState) (now : Int)
    (evs : List CalEvent) (ids : Nat → String) : TickResult :=
  if now < START_DATETIME then ⟨st, [], none⟩
  else
    let nch := hourOf (now + 3600)
    let doCheck := decide (60 - minuteOf now < MINUTES_NOUSERS)
    let notify0 := doCheck && (decide (st.checked_hour ≠ some nch) && is_checked_hour nch)
    let st0 := if doCheck then { st with checked_hour := some nch } else st
    let a := annLoop now nch ids (get_pending_tutor_cals now evs) ⟨st0, notify0, 0, []⟩
    let sent1 :=
      if a.notify then
        a.sent ++ [Sent.coverage ((a.st.checked_hour.getD 0 + CHALLENGE_TIME_OFFSET).emod 24)]
      else a.sent
    (a.st.announced.map Prod.fst).foldl (processRecord now) ⟨a.st, sent1, none⟩

theorem pending_eq_filter_sorted (now : Int) (evs : List CalEvent) :
    get_pending_tutor_cals now evs =
      (List.insertionSort (fun e1 e2 => now - e2.start ≤ now - e1.start) evs).filter
        (fun ev => decide (now < ev.start)) := by
  unfold get_pending_tutor_cals
  exact List.filter_congr (fun ev _ => by simp [Int.sub_pos])

theorem pending_perm_sorted (now : Int) (evs : List CalEvent) :
    (get_pending_tutor_cals now evs).Perm (evs.filter (fun ev => decide (now < ev.start)))
    ∧ List.Pairwise (fun a b : CalEvent => a.start ≤ b.start)
        (get_pending_tutor_cals now evs) := by
  constructor
  · rw [pending_eq_filter_sorted]
    exact (List.perm_insertionSort _ evs).filter _
  · rw [pending_eq_filter_sorted]
    have hs : List.Pairwise (fun a b : CalEvent => a.start ≤ b.start)
        (List.insertionSort (fun e1 e2 => now - e2.start ≤ now - e1.start) evs) := by
      letI : IsTotal CalEvent (fun e1 e2 => now - e2.start ≤ now - e1.start) :=
        ⟨fun a b => by omega⟩
      letI : IsTrans CalEvent (fun e1 e2 => now - e2.start ≤ now - e1.start) :=
        ⟨fun a b c hab hbc => by omega⟩
      exact (List.sorted_insertionSort _ evs).imp (fun h => by omega)
    exact List.Pairwise.sublist (List.filter_sublist _) hs

/-- Claim C9: `get_pending_tutor_cals(now)` returns exactly the fetched
events whose start is strictly after `now` (as a multiset), ordered by
ascending start time. -/
theorem pending_events_spec (now : Int) (evs : List CalEvent) :
    (get_pending_tutor_cals now evs).Perm (evs.filter (fun ev => decide (now < ev.start)))
    ∧ List.Pairwise (fun a b : CalEvent => a.start ≤ b.start)
        (get_pending_tutor_cals now evs) :=
  pending_perm_sorted now evs

/-- Claim C8: directory registration (`add_tutor`) never overwrites an
existing name→identity mapping and is idempotent, while a correlation-reply
correction (`tutors_dict[name] = foundid` in `rtm_message`) and the startup
load of persisted overrides (`load_tutors_dict`) overwrite unconditionally. -/
theorem register_correct_semantics :
    (∀ d m, (d (some (realNameOf m))).isSome → add_tutor d m = d)
    ∧ (∀ d m, add_tutor (add_tutor d m) m = add_tutor d m)
    ∧ (∀ (st : RState) (tid text : String) (data : WatchEntry) (fid nm : String),
        st.watch tid = some data → data.sourcename = some nm →
        reMatchSlackId text = some fid →
        (rtm_message st (some tid) text).st.tutors (some nm) = some fid)
    ∧ (∀ (d : Option String → Option String) members pairs (n i : String),
        load_tutors_dict d members (pairs ++ [(n, i)]) (some n) = some i) := by
  refine ⟨?_, ?_, ?_, ?_⟩
  · intro d m h
    unfold add_tutor
    cases hd : d (some (realNameOf m)) with
    | some x => rfl
    | none => rw [hd] at h; simp at h
  · intro d m
    unfold add_tutor
    cases hd : d (some (realNameOf m)) with
    | some x => simp [hd]
    | none => simp [hd, dictSet]
  · intro st tid text data fid nm hw hn hm
    simp [rtm_message, hw, hn, hm, dictSet]
  · intro d members pairs n i
    simp [load_tutors_dict, List.foldl_append, dictSet]

/-- Witness for `register_correct_semantics` at concrete inputs. -/
theorem register_correct_semantics_witness :
    add_tutor (fun q => if q = some "Ann" then some "U1" else none)
        (Member.mk "U2" "ann" (some "Ann")) =
      (fun q => if q = some "Ann" then some "U1" else none)
    ∧ load_tutors_dict (fun _ => none) [] ([("Bob", "U1")] ++ [("Bob", "U2")])
        (some "Bob") = some "U2" :=
  ⟨register_correct_semantics.1 _ _ (by simp [realNameOf]),
   register_correct_semantics.2.2.2 _ [] [("Bob", "U1")] "Bob" "U2"⟩

/-- Claim C5: a reaction acknowledges a shift (sets `acked`, removes the
watch, sends a threaded thanks) iff the reacted-to message is watched and
the reacting user equals the identity currently resolved for the stored
name; reactions to unwatched messages or from non-matching users (which
includes every reaction for a stored name with no resolved identity) change
nothing.  `userid ≠ ""` reflects that Slack user ids are nonempty (the code
compares against the sentinel `tutors_dict.get(name, '')`). -/
theorem reaction_ack_iff (st : RState) (msgid userid : String) (hu : userid ≠ "") :
    (st.watch msgid = none → rtm_reaction_added st msgid userid = ⟨st, [], none⟩)
    ∧ (∀ prev, st.watch msgid = some prev → st.tutors prev.sourcename ≠ some userid →
        rtm_reaction_added st msgid userid = ⟨st, [], none⟩)
    ∧ (∀ prev e, st.watch msgid = some prev → st.tutors prev.sourcename = some userid →
        lookupA st.announced prev.calid = some e →
        (rtm_reaction_added st msgid userid).st.watch msgid = none
        ∧ lookupA (rtm_reaction_added st msgid userid).st.announced prev.calid
            = some { e with acked := true }
        ∧ (∀ k, k ≠ msgid →
            (rtm_reaction_added st msgid userid).st.watch k = st.watch k)
        ∧ (∀ c, c ≠ prev.calid →
            lookupA (rtm_reaction_added st msgid userid).st.announced c
              = lookupA st.announced c)
        ∧ (rtm_reaction_added st msgid userid).st.tutors = st.tutors
        ∧ (rtm_reaction_added st msgid userid).st.kv = st.kv
        ∧ (rtm_reaction_added st msgid userid).sent = [Sent.ackThanks userid msgid]
        ∧ (rtm_reaction_added st msgid userid).err = none) := by
  refine ⟨?_, ?_, ?_⟩
  · intro h
    simp [rtm_reaction_added, h]
  · intro prev hw hne
    have hgd : (st.tutors prev.sourcename).getD "" ≠ userid := by
      cases ht : st.tutors prev.sourcename with
      | none => simpa using fun h => hu h.symm
      | some x =>
        rw [ht] at hne
        simpa using fun h => hne (by rw [h])
    simp [rtm_reaction_added, hw, hgd]
  · intro prev e hw ht hl
    have hgd : ¬ ((st.tutors prev.sourcename).getD "" ≠ userid) := by
      rw [ht]; simp
    simp only [rtm_reaction_added, hw, hl, hgd, if_false]
    refine ⟨by simp, ?_, ?_, ?_, by trivial, by trivial, by trivial, by trivial⟩
    · exact lookupA_setAcked_self _ _ _ hl
    · intro k hk; simp [hk]
    · intro c hc; exact lookupA_setAcked_ne _ _ _ (fun h => hc h.symm)

/-- Witness for `reaction_ack_iff`: a reaction to an unwatched message is a
no-op. -/
theorem reaction_ack_iff_witness :
    rtm_reaction_added
        (RState.mk (fun _ => none) (fun _ => none) [] none (fun _ => none)) "m9" "U7" =
      ⟨RState.mk (fun _ => none) (fun _ => none) [] none (fun _ => none), [], none⟩ :=
  (reaction_ack_iff _ "m9" "U7" (by decide)).1 rfl

/-- Claim C10: for a watched message whose stored name is absent
(`sourcename = None`), a threaded reply that begins with a mention token
writes the found identity into the in-memory `tutors_dict` under the key
`None` and then raises (`None.encode('utf-8')` → `AttributeError`) before
the pair is persisted to the key-value store and before any confirmation is
sent. -/
theorem correlation_none_name (st : RState) (tid text : String) (data : WatchEntry)
    (fid : String) (hw : st.watch tid = some data) (hn : data.sourcename = none)
    (hm : reMatchSlackId text = some fid) :
    (rtm_message st (some tid) text).err = some PyErr.attrError
    ∧ (rtm_message st (some tid) text).st.tutors none = some fid
    ∧ (rtm_message st (some tid) text).st.kv = st.kv
    ∧ (rtm_message st (some tid) text).sent = []
    ∧ (rtm_message st (some tid) text).st.watch = st.watch
    ∧ (rtm_message st (some tid) text).st.announced = st.announced := by
  simp [rtm_message, hw, hn, hm, dictSet]

/-- Witness for `correlation_none_name` at a concrete state and reply. -/
theorem correlation_none_name_witness :
    (rtm_message
        (RState.mk (fun _ => none)
          (fun k => if k = "t3" then some (WatchEntry.mk none "c3") else none)
          [] none (fun _ => none))
        (some "t3") "<@U5X>").err = some PyErr.attrError
    ∧ (rtm_message
        (RState.mk (fun _ => none)
          (fun k => if k = "t3" then some (WatchEntry.mk none "c3") else none)
          [] none (fun _ => none))
        (some "t3") "<@U5X>").st.tutors none = some "U5X" :=
  ⟨(correlation_none_name _ "t3" "<@U5X>" (WatchEntry.mk none "c3") "U5X"
      (by simp) rfl (by decide)).1,
   (correlation_none_name _ "t3" "<@U5X>" (WatchEntry.mk none "c3") "U5X"
      (by simp) rfl (by decide)).2.1⟩

/-- Claim C7 (amended): for a threaded reply to a watched thread whose
stored name is present, the handler updates the resolver, persists the
pair, and sends a threaded confirmation exactly when the reply text BEGINS
with a self-mention token (`re.match` is anchored); the watch stays open
and the owning record's `acked` flag is untouched; a reply that does not
begin with such a token changes nothing. -/
theorem correlation_reply_spec (st : RState) (tid text : String) (data : WatchEntry)
    (nm : String) (hw : st.watch tid = some data) (hn : data.sourcename = some nm) :
    (reMatchSlackId text = none → rtm_message st (some tid) text = ⟨st, [], none⟩)
    ∧ (∀ fid, reMatchSlackId text = some fid →
        (rtm_message st (some tid) text).st.tutors (some nm) = some fid
        ∧ (rtm_message st (some tid) text).st.kv nm = some fid
        ∧ (∀ k, k ≠ nm → (rtm_message st (some tid) text).st.kv k = st.kv k)
        ∧ (rtm_message st (some tid) text).sent = [Sent.correlThanks nm fid tid]
        ∧ (rtm_message st (some tid) text).st.watch = st.watch
        ∧ (rtm_message st (some tid) text).st.announced = st.announced
        ∧ (rtm_message st (some tid) text).err = none) := by
  constructor
  · intro hnone
    simp [rtm_message, hw, hn, hnone]
  · intro fid hm
    simp only [rtm_message, hw, hn, hm]
    refine ⟨by simp [dictSet], by simp, ?_, by trivial, by trivial, by trivial, by trivial⟩
    intro k hk
    simp [hk]

/-- Witness for `correlation_reply_spec` at a concrete state and reply. -/
theorem correlation_reply_spec_witness :
    (rtm_message
        (RState.mk (fun _ => none)
          (fun k => if k = "t4" then some (WatchEntry.mk (some "Bob") "c4") else none)
          [] none (fun _ => none))
        (some "t4") "<@U8>ok").st.tutors (some "Bob") = some "U8"
    ∧ (rtm_message
        (RState.mk (fun _ => none)
          (fun k => if k = "t4" then some (WatchEntry.mk (some "Bob") "c4") else none)
          [] none (fun _ => none))
        (some "t4") "<@U8>ok").st.kv "Bob" = some "U8" :=
  ⟨((correlation_reply_spec _ "t4" "<@U8>ok" (WatchEntry.mk (some "Bob") "c4") "Bob"
      (by simp) rfl).2 "U8" (by decide)).1,
   ((correlation_reply_spec _ "t4" "<@U8>ok" (WatchEntry.mk (some "Bob") "c4") "Bob"
      (by simp) rfl).2 "U8" (by decide)).2.1⟩

/-- Counterexample to claim C7 as stated: the reply text " hi <@U1B>"
CONTAINS a self-mention token, but because `RE_SLACKID.match` only matches
at the start of the text the handler ignores it: no state changes and no
confirmation is sent, so the resolver mapping for the stored name "Bob" is
not updated. -/
theorem correlation_contains_counterexample :
    specContainsMention (String.data " hi <@U1B>") = true
    ∧ rtm_message
        (RState.mk (fun _ => none)
          (fun k => if k = "t5" then some (WatchEntry.mk (some "Bob") "c5") else none)
          [] none (fun _ => none))
        (some "t5") " hi <@U1B>" =
      ⟨RState.mk (fun _ => none)
          (fun k => if k = "t5" then some (WatchEntry.mk (some "Bob") "c5") else none)
          [] none (fun _ => none), [], none⟩
    ∧ (RState.mk (fun _ => none)
          (fun k => if k = "t5" then some (WatchEntry.mk (some "Bob") "c5") else none)
          [] none (fun _ => none) : RState).tutors (some "Bob") ≠ some "U1B" := by
  refine ⟨by decide, ?_, by decide⟩
  rfl

theorem dropWhile_head_false {α : Type} (p : α → Bool) :
    ∀ (l : List α) (c : α) (s : List α), l.dropWhile p = c :: s → p c = false := by
  intro l
  induction l with
  | nil => intro c s h; simp at h
  | cons x xs ih =>
    intro c s h
    rw [List.dropWhile_cons] at h
    by_cases hp : p x
    · rw [if_pos hp] at h
      exact ih c s h
    · rw [if_neg hp] at h
      cases h
      simpa using hp

theorem dropWhile_append_all {α : Type} (p : α → Bool) (xs ys : List α)
    (h : ∀ x ∈ xs, p x = true) : (xs ++ ys).dropWhile p = ys.dropWhile p := by
  induction xs with
  | nil => rfl
  | cons x xs ih =>
    rw [List.cons_append, List.dropWhile_cons, if_pos (h x (by simp))]
    exact ih (fun y hy => h y (by simp [hy]))

theorem takeWhile_ne_newline_eq_self (l : List Char) (hnl : '\n' ∉ l) :
    l.takeWhile (fun c => c ≠ '\n') = l := by
  rw [List.takeWhile_eq_self_iff]
  intro x hx
  simp only [ne_eq, decide_eq_true_eq]
  exact fun h => hnl (h ▸ hx)

theorem greedyGroup_eq_none_of_no_close (l : List Char) (h : ')' ∉ l) :
    greedyGroup l = none := by
  unfold greedyGroup
  have hnil : (l.takeWhile (fun c => c ≠ '\n')).reverse.dropWhile (fun c => c ≠ ')') = [] := by
    rw [List.dropWhile_eq_nil_iff]
    intro x hx
    have hx1 : x ∈ l :=
      (List.takeWhile_sublist _).subset (List.mem_reverse.mp hx)
    simp only [ne_eq, decide_eq_true_eq]
    exact fun hx2 => h (hx2 ▸ hx1)
  rw [hnil]

theorem greedyGroup_eq_none_iff (l : List Char) (hnl : '\n' ∉ l) :
    greedyGroup l = none ↔ ')' ∉ l := by
  constructor
  · intro h hmem
    unfold greedyGroup at h
    rw [takeWhile_ne_newline_eq_self l hnl] at h
    cases hd : l.reverse.dropWhile (fun c => c ≠ ')') with
    | nil =>
      have hall := List.dropWhile_eq_nil_iff.mp hd
      have := hall ')' (List.mem_reverse.mpr hmem)
      simp at this
    | cons c s => rw [hd] at h; simp at h
  · exact greedyGroup_eq_none_of_no_close l

theorem greedyGroup_eq_some_iff (l g : List Char) (hnl : '\n' ∉ l) :
    greedyGroup l = some g ↔ ∃ suf, l = g ++ ')' :: suf ∧ ')' ∉ suf := by
  unfold greedyGroup
  rw [takeWhile_ne_newline_eq_self l hnl]
  cases hd : l.reverse.dropWhile (fun c => c ≠ ')') with
  | nil =>
    simp only [lookupA_nil]
    constructor
    · intro h; simp at h
    · rintro ⟨suf, hl, hsuf⟩
      exfalso
      have hall := List.dropWhile_eq_nil_iff.mp hd
      have hmem : ')' ∈ l.reverse := List.mem_reverse.mpr (by rw [hl]; simp)
      have := hall _ hmem
      simp at this
  | cons c s =>
    have hc : c = ')' := by
      have := dropWhile_head_false _ _ _ _ hd
      simpa using this
    subst hc
    have hsplit : l.reverse = l.reverse.takeWhile (fun c => c ≠ ')') ++ ')' :: s := by
      conv_lhs => rw [← List.takeWhile_append_dropWhile (fun c => decide (c ≠ ')')) l.reverse]
      rw [hd]
    have hTall : ∀ x ∈ l.reverse.takeWhile (fun c => c ≠ ')'), x ≠ ')' := by
      intro x hx
      have := List.mem_takeWhile_imp hx
      simpa using this
    have hldecomp : l = s.reverse ++ ')' :: (l.reverse.takeWhile (fun c => c ≠ ')')).reverse := by
      have h1 := congrArg List.reverse hsplit
      rw [List.reverse_reverse, List.reverse_append, List.reverse_cons, List.append_assoc] at h1
      simpa using h1
    constructor
    · intro h
      have hg : g = s.reverse := by
        simp only [Option.some.injEq] at h
        exact h.symm
      refine ⟨(l.reverse.takeWhile (fun c => c ≠ ')')).reverse, ?_, ?_⟩
      · rw [hg]; exact hldecomp
      · intro hmem
        exact hTall ')' (List.mem_reverse.mp hmem) rfl
    · rintro ⟨suf, hl, hsuf⟩
      have hrev : l.reverse = suf.reverse ++ ')' :: g.reverse := by
        rw [hl, List.reverse_append, List.reverse_cons, List.append_assoc]
        simp
      have hdrop : l.reverse.dropWhile (fun c => c ≠ ')') = ')' :: g.reverse := by
        rw [hrev, dropWhile_append_all _ _ _ (fun x hx => by
          simp only [ne_eq, decide_eq_true_eq]
          exact fun hxx => hsuf (hxx ▸ List.mem_reverse.mp hx))]
        rw [List.dropWhile_cons]
        simp
      rw [hd] at hdrop
      have hs : s = g.reverse := by
        simpa using hdrop
      rw [hs]
      simp

theorem reSearchParen_none_of_no_close (l : List Char) (h : ')' ∉ l) :
    reSearchParen l = none := by
  induction l with
  | nil => rfl
  | cons c rest ih =>
    have hr : ')' ∉ rest := fun hm => h (by simp [hm])
    unfold reSearchParen
    by_cases hc : c = '('
    · rw [if_pos hc, greedyGroup_eq_none_of_no_close rest hr]
      exact ih hr
    · rw [if_neg hc]
      exact ih hr

theorem reSearchParen_eq_some_iff (l : List Char) (hnl : '\n' ∉ l) (g : List Char) :
    reSearchParen l = some g ↔
      ∃ pre suf, l = pre ++ '(' :: (g ++ ')' :: suf) ∧ '(' ∉ pre ∧ ')' ∉ suf := by
  induction l with
  | nil =>
    constructor
    · intro h; simp [reSearchParen] at h
    · rintro ⟨pre, suf, hl, -, -⟩
      simp at hl
  | cons c rest ih =>
    have hnlr : '\n' ∉ rest := fun hm => hnl (by simp [hm])
    unfold reSearchParen
    by_cases hc : c = '('
    · subst hc
      rw [if_pos rfl]
      cases hg : greedyGroup rest with
      | some g0 =>
        constructor
        · intro h
          have hgg : g = g0 := by
            simp only [Option.some.injEq] at h
            exact h.symm
          subst hgg
          obtain ⟨suf, hrest, hsuf⟩ := (greedyGroup_eq_some_iff rest g hnlr).mp hg
          exact ⟨[], suf, by simp [hrest], by simp, hsuf⟩
        · rintro ⟨pre, suf, hl, hpre, hsuf⟩
          cases pre with
          | nil =>
            simp only [List.nil_append, List.cons.injEq] at hl
            have : greedyGroup rest = some g :=
              (greedyGroup_eq_some_iff rest g hnlr).mpr ⟨suf, hl.2, hsuf⟩
            rw [hg] at this
            simp only [Option.some.injEq] at this
            rw [this]
          | cons p ps =>
            simp only [List.cons_append, List.cons.injEq] at hl
            exact absurd (hl.1 ▸ List.mem_cons_self p ps) hpre
      | none =>
        have hnc2 : ')' ∉ rest := (greedyGroup_eq_none_iff rest hnlr).mp hg
        rw [reSearchParen_none_of_no_close rest hnc2]
        constructor
        · intro h; simp at h
        · rintro ⟨pre, suf, hl, hpre, hsuf⟩
          exfalso
          cases pre with
          | nil =>
            simp only [List.nil_append, List.cons.injEq] at hl
            exact hnc2 (by rw [hl.2]; simp)
          | cons p ps =>
            simp only [List.cons_append, List.cons.injEq] at hl
            exact hpre (hl.1 ▸ List.mem_cons_self p ps)
    · rw [if_neg hc]
      rw [ih hnlr]
      constructor
      · rintro ⟨pre, suf, hl, hpre, hsuf⟩
        refine ⟨c :: pre, suf, by rw [hl]; rfl, ?_, hsuf⟩
        intro hm
        rcases List.mem_cons.mp hm with h1 | h1
        · exact hc h1.symm
        · exact hpre h1
      · rintro ⟨pre, suf, hl, hpre, hsuf⟩
        cases pre with
        | nil =>
          simp only [List.nil_append, List.cons.injEq] at hl
          exact absurd hl.1 hc
        | cons p ps =>
          simp only [List.cons_append, List.cons.injEq] at hl
          refine ⟨ps, suf, hl.2, ?_, hsuf⟩
          exact fun hm => hpre (List.mem_cons.mpr (Or.inr hm))

theorem normalizeParens_no_newline (l : List Char) (h : '\n' ∉ l) :
    '\n' ∉ normalizeParens l := by
  intro hm
  unfold normalizeParens at hm
  obtain ⟨c, hc, hce⟩ := List.mem_map.mp hm
  by_cases h1 : c = Char.ofNat 65288
  · rw [if_pos h1] at hce
    exact absurd hce (by decide)
  · rw [if_neg h1] at hce
    by_cases h2 : c = Char.ofNat 65289
    · rw [if_pos h2] at hce
      exact absurd hce (by decide)
    · rw [if_neg h2] at hce
      exact h (hce ▸ hc)

/-- Claim C6 (amended): after normalizing the two fullwidth parenthesis
characters to ASCII, `extract_name_from_cal` returns the text strictly
between the FIRST `(` (that has a matching later `)`) and the LAST `)` — a
greedy leftmost regex match spanning every intermediate group, not the last
parenthesised group — and it fails exactly when no `(` is followed by a
later `)`.  Stated for newline-free summaries (`.` does not cross a
newline). -/
theorem extract_name_spec (s : String) (hnl : '\n' ∉ s.data) :
    (∀ g : String, extract_name_from_cal s = some g ↔
      ∃ pre suf, normalizeParens s.data = pre ++ '(' :: (g.data ++ ')' :: suf)
        ∧ '(' ∉ pre ∧ ')' ∉ suf)
    ∧ (extract_name_from_cal s = none ↔
      ¬ ∃ (mid pre suf : List Char),
          normalizeParens s.data = pre ++ '(' :: (mid ++ ')' :: suf)
            ∧ '(' ∉ pre ∧ ')' ∉ suf) := by
  have hnl2 := normalizeParens_no_newline s.data hnl
  have hmain : ∀ g : String, extract_name_from_cal s = some g ↔
      ∃ pre suf, normalizeParens s.data = pre ++ '(' :: (g.data ++ ')' :: suf)
        ∧ '(' ∉ pre ∧ ')' ∉ suf := by
    intro g
    unfold extract_name_from_cal
    constructor
    · intro h
      obtain ⟨l, hl, he⟩ := Option.map_eq_some'.mp h
      have hgl : l = g.data := by
        rw [← he]
      rw [hgl] at hl
      exact (reSearchParen_eq_some_iff _ hnl2 g.data).mp hl
    · intro hex
      have := (reSearchParen_eq_some_iff _ hnl2 g.data).mpr hex
      rw [this]
      rfl
  refine ⟨hmain, ?_⟩
  constructor
  · intro h ⟨mid, pre, suf, hdec, hpre, hsuf⟩
    have : extract_name_from_cal s = some (String.mk mid) :=
      (hmain (String.mk mid)).mpr ⟨pre, suf, hdec, hpre, hsuf⟩
    rw [h] at this
    cases this
  · intro h
    cases he : extract_name_from_cal s with
    | none => rfl
    | some g =>
      exfalso
      obtain ⟨pre, suf, hdec, hpre, hsuf⟩ := (hmain g).mp he
      exact h ⟨g.data, pre, suf, hdec, hpre, hsuf⟩

/-- Witness for `extract_name_spec`: a fullwidth-parenthesised summary. -/
theorem extract_name_spec_witness :
    extract_name_from_cal "NCSS Tutoring （Ann Lee）" = some "Ann Lee" :=
  ((extract_name_spec "NCSS Tutoring （Ann Lee）" (by decide)).1 "Ann Lee").mpr
    ⟨"NCSS Tutoring ".data, [], by decide, by decide, by decide⟩

/-- Counterexample to claim C6 as stated: on "a (b) c (d)" the code's
greedy leftmost match returns the span "b) c (d" between the first `(` and
the last `)`, not the LAST parenthesised group "d" that the spec describes. -/
theorem extract_last_group_counterexample :
    extract_name_from_cal "a (b) c (d)" = some "b) c (d"
    ∧ lastParenGroup "a (b) c (d)" = some "d"
    ∧ (some "b) c (d" : Option String) ≠ some "d" := by
  refine ⟨by decide, by decide, by decide⟩

/-- Does this sent message announce the shift with identity `c`? -/
def isAnnounceFor (c : String) : Sent → Bool
  | Sent.announce c2 _ _ => c2 = c
  | _ => false

/-- Number of announcements for the shift identity `c` among the sends. -/
def countAnn (sent : List Sent) (c : String) : Nat :=
  (sent.filter (isAnnounceFor c)).length

/-- Is this sent message a coverage warning? -/
def isCoverage : Sent → Bool
  | Sent.coverage _ => true
  | _ => false

/-- The prefix of the pending list the announcement pass actually scans:
everything up to and including the first event whose time-to-start is at
least `MINUTES_NOTIFY` minutes (the `break`; its start hour IS still
checked against the coverage hour before breaking). -/
def scannedInit (now : Int) : List CalEvent → List CalEvent
  | [] => []
  | ev :: rest =>
    if 60 * MINUTES_NOTIFY ≤ ev.start - now then [ev]
    else ev :: scannedInit now rest

@[simp]
theorem countAnn_nil (c : String) : countAnn [] c = 0 := rfl

theorem scannedInit_cons (now : Int) (ev : CalEvent) (rest : List CalEvent) :
    scannedInit now (ev :: rest) =
      if 60 * MINUTES_NOTIFY ≤ ev.start - now then [ev]
      else ev :: scannedInit now rest := rfl

theorem countAnn_append (xs ys : List Sent) (c : String) :
    countAnn (xs ++ ys) c = countAnn xs c + countAnn ys c := by
  simp [countAnn, List.filter_append]

@[simp]
theorem countAnn_announce_self (c : String) (sid : Option String) (nm : Option String) :
    countAnn [Sent.announce c sid nm] c = 1 := by
  simp [countAnn, isAnnounceFor]

theorem countAnn_announce_ne (c c2 : String) (sid : Option String) (nm : Option String)
    (h : c2 ≠ c) : countAnn [Sent.announce c2 sid nm] c = 0 := by
  simp [countAnn, isAnnounceFor, h]

@[simp]
theorem countAnn_coverage (h : Int) (c : String) : countAnn [Sent.coverage h] c = 0 := rfl

@[simp]
theorem countAnn_escalate (m : String) (c : String) : countAnn [Sent.escalate m] c = 0 := rfl

@[simp]
theorem hourUpd_st (nch : Int) (ev : CalEvent) (a : AnnSt) : (hourUpd nch ev a).st = a.st := by
  unfold hourUpd; split <;> rfl

@[simp]
theorem hourUpd_sent (nch : Int) (ev : CalEvent) (a : AnnSt) :
    (hourUpd nch ev a).sent = a.sent := by
  unfold hourUpd; split <;> rfl

@[simp]
theorem hourUpd_k (nch : Int) (ev : CalEvent) (a : AnnSt) : (hourUpd nch ev a).k = a.k := by
  unfold hourUpd; split <;> rfl

theorem hourUpd_notify (nch : Int) (ev : CalEvent) (a : AnnSt) :
    (hourUpd nch ev a).notify = if hourOf ev.start = nch then false else a.notify := by
  unfold hourUpd; split <;> simp_all

@[simp]
theorem announceStep_sent (ids : Nat → String) (ev : CalEvent) (a : AnnSt) :
    (announceStep ids ev a).sent = a.sent ++
      [Sent.announce (calidOf ev) (a.st.tutors (extract_name_from_cal ev.summary))
        (extract_name_from_cal ev.summary)] := rfl

@[simp]
theorem announceStep_notify (ids : Nat → String) (ev : CalEvent) (a : AnnSt) :
    (announceStep ids ev a).notify = a.notify := rfl

@[simp]
theorem announceStep_announced (ids : Nat → String) (ev : CalEvent) (a : AnnSt) :
    (announceStep ids ev a).st.announced =
      insertA a.st.announced (calidOf ev) (AnnEntry.mk ev (ids a.k) false) := rfl

@[simp]
theorem annLoop_nil (now nch : Int) (ids : Nat → String) (a : AnnSt) :
    annLoop now nch ids [] a = a := rfl

theorem annLoop_cons (now nch : Int) (ids : Nat → String) (ev : CalEvent)
    (rest : List CalEvent) (a : AnnSt) :
    annLoop now nch ids (ev :: rest) a =
      if 60 * MINUTES_NOTIFY ≤ ev.start - now then hourUpd nch ev a
      else if (lookupA (hourUpd nch ev a).st.announced (calidOf ev)).isSome then
        annLoop now nch ids rest (hourUpd nch ev a)
      else annLoop now nch ids rest (announceStep ids ev (hourUpd nch ev a)) := rfl

theorem annLoop_preserves_existing (now nch : Int) (ids : Nat → String) :
    ∀ (l : List CalEvent) (a : AnnSt) (c : String),
      (lookupA a.st.announced c).isSome →
      lookupA (annLoop now nch ids l a).st.announced c = lookupA a.st.announced c
      ∧ countAnn (annLoop now nch ids l a).sent c = countAnn a.sent c := by
  intro l
  induction l with
  | nil => intro a c h; simp
  | cons ev rest ih =>
    intro a c h
    rw [annLoop_cons]
    by_cases hb : 60 * MINUTES_NOTIFY ≤ ev.start - now
    · rw [if_pos hb]; simp
    · rw [if_neg hb]
      by_cases hs : (lookupA (hourUpd nch ev a).st.announced (calidOf ev)).isSome
      · rw [if_pos hs]
        have := ih (hourUpd nch ev a) c (by simpa using h)
        simpa using this
      · rw [if_neg hs]
        have hcne : calidOf ev ≠ c := by
          intro he
          rw [hourUpd_st, he] at hs
          exact hs h
        have h2 : (lookupA (announceStep ids ev (hourUpd nch ev a)).st.announced c).isSome := by
          rw [announceStep_announced, hourUpd_st, lookupA_insertA_ne _ _ _ _ hcne]
          exact h
        obtain ⟨ha, hc⟩ := ih (announceStep ids ev (hourUpd nch ev a)) c h2
        constructor
        · rw [ha, announceStep_announced, hourUpd_st, lookupA_insertA_ne _ _ _ _ hcne]
        · rw [hc, announceStep_sent, hourUpd_sent, countAnn_append,
            countAnn_announce_ne _ _ _ _ hcne]
          omega

theorem annLoop_announces_once (now nch : Int) (ids : Nat → String) :
    ∀ (l : List CalEvent) (a : AnnSt) (c : String),
      lookupA a.st.announced c = none →
      List.Pairwise (fun x y : CalEvent => x.start ≤ y.start) l →
      (∃ ev ∈ l, calidOf ev = c ∧ ev.start - now < 60 * MINUTES_NOTIFY) →
      countAnn (annLoop now nch ids l a).sent c = countAnn a.sent c + 1
      ∧ ∃ e, lookupA (annLoop now nch ids l a).st.announced c = some e
          ∧ e.acked = false ∧ e.cal ∈ l ∧ calidOf e.cal = c := by
  intro l
  induction l with
  | nil =>
    intro a c h1 h2 hex
    obtain ⟨ev, hm, -⟩ := hex
    simp at hm
  | cons ev rest ih =>
    intro a c h1 hsort hex
    rw [annLoop_cons]
    by_cases hb : 60 * MINUTES_NOTIFY ≤ ev.start - now
    · exfalso
      obtain ⟨w, hw, hwc, hwin⟩ := hex
      rcases List.mem_cons.mp hw with h | h
      · subst h; omega
      · have := (List.pairwise_cons.mp hsort).1 w h
        omega
    · rw [if_neg hb]
      by_cases hc : calidOf ev = c
      · have hs : ¬ (lookupA (hourUpd nch ev a).st.announced (calidOf ev)).isSome := by
          rw [hourUpd_st, hc, h1]; simp
        rw [if_neg hs]
        have h2 : (lookupA (announceStep ids ev (hourUpd nch ev a)).st.announced c).isSome := by
          rw [announceStep_announced, hourUpd_st, hourUpd_k, ← hc, lookupA_insertA_self]
          rfl
        obtain ⟨ha, hcnt⟩ := annLoop_preserves_existing now nch ids rest
          (announceStep ids ev (hourUpd nch ev a)) c h2
        constructor
        · rw [hcnt, announceStep_sent, hourUpd_sent, countAnn_append, hc, countAnn_announce_self]
        · refine ⟨AnnEntry.mk ev (ids a.k) false, ?_, rfl, by simp, hc⟩
          rw [ha, announceStep_announced, hourUpd_st, hourUpd_k, ← hc, lookupA_insertA_self]
      · have hex2 : ∃ w ∈ rest, calidOf w = c ∧ w.start - now < 60 * MINUTES_NOTIFY := by
          obtain ⟨w, hw, hwc, hwin⟩ := hex
          rcases List.mem_cons.mp hw with h | h
          · exact absurd (h ▸ hwc) hc
          · exact ⟨w, h, hwc, hwin⟩
        have hsort2 := (List.pairwise_cons.mp hsort).2
        by_cases hs : (lookupA (hourUpd nch ev a).st.announced (calidOf ev)).isSome
        · rw [if_pos hs]
          have h1b : lookupA (hourUpd nch ev a).st.announced c = none := by
            rw [hourUpd_st]; exact h1
          obtain ⟨hcnt, e, he, hea, hem, hec⟩ := ih (hourUpd nch ev a) c h1b hsort2 hex2
          refine ⟨by simpa using hcnt, e, he, hea, List.mem_cons.mpr (Or.inr hem), hec⟩
        · rw [if_neg hs]
          have h1b : lookupA (announceStep ids ev (hourUpd nch ev a)).st.announced c = none := by
            rw [announceStep_announced, hourUpd_st, lookupA_insertA_ne _ _ _ _ hc]
            exact h1
          obtain ⟨hcnt, e, he, hea, hem, hec⟩ :=
            ih (announceStep ids ev (hourUpd nch ev a)) c h1b hsort2 hex2
          constructor
          · rw [hcnt, announceStep_sent, hourUpd_sent, countAnn_append,
              countAnn_announce_ne _ _ _ _ hc]
          · exact ⟨e, he, hea, List.mem_cons.mpr (Or.inr hem), hec⟩

theorem annLoop_notify_eq (now nch : Int) (ids : Nat → String) :
    ∀ (l : List CalEvent) (a : AnnSt),
      (annLoop now nch ids l a).notify =
        (a.notify && decide (∀ ev ∈ scannedInit now l, hourOf ev.start ≠ nch)) := by
  intro l
  induction l with
  | nil => intro a; simp [scannedInit]
  | cons ev rest ih =>
    intro a
    rw [annLoop_cons]
    by_cases hb : 60 * MINUTES_NOTIFY ≤ ev.start - now
    · rw [if_pos hb]
      rw [hourUpd_notify]
      have hsc : scannedInit now (ev :: rest) = [ev] := by
        rw [scannedInit_cons, if_pos hb]
      rw [hsc]
      by_cases hh : hourOf ev.start = nch
      · simp [hh]
      · simp [hh]
    · rw [if_neg hb]
      have hsc : scannedInit now (ev :: rest) = ev :: scannedInit now rest := by
        rw [scannedInit_cons, if_neg hb]
      have hnot : ∀ a2 : AnnSt, a2 = hourUpd nch ev a ∨ a2 = announceStep ids ev (hourUpd nch ev a) →
          (annLoop now nch ids rest a2).notify =
            ((if hourOf ev.start = nch then false else a.notify) &&
              decide (∀ w ∈ scannedInit now rest, hourOf w.start ≠ nch)) := by
        intro a2 h2
        rcases h2 with h2 | h2 <;>
          rw [h2, ih] <;>
          simp [hourUpd_notify]
      rw [hsc]
      by_cases hs : (lookupA (hourUpd nch ev a).st.announced (calidOf ev)).isSome
      · rw [if_pos hs, hnot _ (Or.inl rfl)]
        by_cases hh : hourOf ev.start = nch <;> simp [hh]
      · rw [if_neg hs, hnot _ (Or.inr rfl)]
        by_cases hh : hourOf ev.start = nch <;> simp [hh]

theorem annLoop_sent_announces (now nch : Int) (ids : Nat → String) :
    ∀ (l : List CalEvent) (a : AnnSt) (x : Sent),
      x ∈ (annLoop now nch ids l a).sent →
      x ∈ a.sent ∨ ∃ c sid nm, x = Sent.announce c sid nm := by
  intro l
  induction l with
  | nil => intro a x hx; exact Or.inl hx
  | cons ev rest ih =>
    intro a x hx
    rw [annLoop_cons] at hx
    by_cases hb : 60 * MINUTES_NOTIFY ≤ ev.start - now
    · rw [if_pos hb, hourUpd_sent] at hx
      exact Or.inl hx
    · rw [if_neg hb] at hx
      by_cases hs : (lookupA (hourUpd nch ev a).st.announced (calidOf ev)).isSome
      · rw [if_pos hs] at hx
        rcases ih _ x hx with h | h
        · rw [hourUpd_sent] at h; exact Or.inl h
        · exact Or.inr h
      · rw [if_neg hs] at hx
        rcases ih _ x hx with h | h
        · rw [announceStep_sent, hourUpd_sent] at h
          rcases List.mem_append.mp h with h2 | h2
          · exact Or.inl h2
          · simp only [List.mem_singleton] at h2
            exact Or.inr ⟨_, _, _, h2⟩
        · exact Or.inr h

theorem processRecord_sent_extends (now : Int) (acc : TickResult) (cid : String) :
    ∃ extra, (processRecord now acc cid).sent = acc.sent ++ extra
      ∧ ∀ x ∈ extra, ∃ m, x = Sent.escalate m := by
  unfold processRecord
  by_cases he : acc.err.isSome
  · rw [if_pos he]; exact ⟨[], by simp, by simp⟩
  · rw [if_neg he]
    cases hld : lookupA acc.st.announced cid with
    | none => exact ⟨[], by simp, by simp⟩
    | some data =>
      dsimp only
      by_cases hexp : data.cal.end_ < now
      · rw [if_pos hexp]
        cases hw : acc.st.watch data.msgid with
        | some w => exact ⟨[], by simp, by simp⟩
        | none => exact ⟨[], by simp, by simp⟩
      · rw [if_neg hexp]
        by_cases hack : data.acked = true
        · rw [if_pos hack]; exact ⟨[], by simp, by simp⟩
        · rw [if_neg hack]
          cases hw : acc.st.watch data.msgid with
          | none => exact ⟨[], by simp, by simp⟩
          | some w =>
            by_cases hd : 60 * MINUTES_DANGER < data.cal.start - now
            · rw [if_pos hd]; exact ⟨[], by simp, by simp⟩
            · rw [if_neg hd]
              exact ⟨[Sent.escalate data.msgid], by simp, by simp⟩

theorem recordLoop_sent_extends (now : Int) (cids : List String) (acc : TickResult) :
    ∃ extra, (List.foldl (processRecord now) acc cids).sent = acc.sent ++ extra
      ∧ ∀ x ∈ extra, ∃ m, x = Sent.escalate m := by
  induction cids generalizing acc with
  | nil => exact ⟨[], by simp, by simp⟩
  | cons cid rest ih =>
    obtain ⟨e1, h1, h1m⟩ := processRecord_sent_extends now acc cid
    obtain ⟨e2, h2, h2m⟩ := ih (processRecord now acc cid)
    refine ⟨e1 ++ e2, ?_, ?_⟩
    · rw [List.foldl_cons, h2, h1, List.append_assoc]
    · intro x hx
      rcases List.mem_append.mp hx with h | h
      exacts [h1m x h, h2m x h]

theorem recordLoop_countAnn (now : Int) (cids : List String) (acc : TickResult) (c : String) :
    countAnn (List.foldl (processRecord now) acc cids).sent c = countAnn acc.sent c := by
  obtain ⟨extra, he, hm⟩ := recordLoop_sent_extends now cids acc
  rw [he, countAnn_append]
  have hz : extra.filter (isAnnounceFor c) = [] := by
    rw [List.filter_eq_nil_iff]
    intro a ha
    obtain ⟨m, rfl⟩ := hm a ha
    simp [isAnnounceFor]
  have : countAnn extra c = 0 := by
    unfold countAnn
    rw [hz]
    rfl
  omega

theorem processRecord_preserves_record (now : Int) (acc : TickResult) (cid c : String)
    (e : AnnEntry) (hl : lookupA acc.st.announced c = some e) (hne : ¬ e.cal.end_ < now) :
    lookupA (processRecord now acc cid).st.announced c = some e := by
  unfold processRecord
  by_cases he : acc.err.isSome
  · rw [if_pos he]; exact hl
  · rw [if_neg he]
    cases hld : lookupA acc.st.announced cid with
    | none => exact hl
    | some data =>
      dsimp only
      by_cases hexp : data.cal.end_ < now
      · rw [if_pos hexp]
        have hcc : cid ≠ c := by
          intro h
          subst h
          rw [hld] at hl
          cases hl
          exact hne hexp
        cases hw : acc.st.watch data.msgid with
        | some w => simpa [lookupA_deleteA_ne _ _ _ hcc] using hl
        | none => simpa [lookupA_deleteA_ne _ _ _ hcc] using hl
      · rw [if_neg hexp]
        by_cases hack : data.acked = true
        · rw [if_pos hack]; exact hl
        · rw [if_neg hack]
          cases hw : acc.st.watch data.msgid with
          | none => exact hl
          | some w =>
            by_cases hd : 60 * MINUTES_DANGER < data.cal.start - now
            · rw [if_pos hd]; exact hl
            · rw [if_neg hd]; exact hl

theorem recordLoop_preserves_record (now : Int) (cids : List String) (acc : TickResult)
    (c : String) (e : AnnEntry) (hl : lookupA acc.st.announced c = some e)
    (hne : ¬ e.cal.end_ < now) :
    lookupA (List.foldl (processRecord now) acc cids).st.announced c = some e := by
  induction cids generalizing acc with
  | nil => exact hl
  | cons cid rest ih =>
    rw [List.foldl_cons]
    exact ih _ (processRecord_preserves_record now acc cid c e hl hne)

/-- The announcement/coverage pass of one poll tick, as `process_calendar`
runs it: the coverage precheck applied to the state and flag, then the scan
over the pending events. -/
def tickA (st : RState) (now : Int) (evs : List CalEvent) (ids : Nat → String) : AnnSt :=
  annLoop now (hourOf (now + 3600)) ids (get_pending_tutor_cals now evs)
    ⟨(if decide (60 - minuteOf now < MINUTES_NOUSERS) then
        { st with checked_hour := some (hourOf (now + 3600)) } else st),
     (decide (60 - minuteOf now < MINUTES_NOUSERS) &&
       (decide (st.checked_hour ≠ some (hourOf (now + 3600))) &&
         is_checked_hour (hourOf (now + 3600)))),
     0, []⟩

/-- The sends of one poll tick after the coverage warning is (possibly)
emitted. -/
def tickSent1 (st : RState) (now : Int) (evs : List CalEvent) (ids : Nat → String) :
    List Sent :=
  if (tickA st now evs ids).notify then
    (tickA st now evs ids).sent ++
      [Sent.coverage (((tickA st now evs ids).st.checked_hour.getD 0 +
        CHALLENGE_TIME_OFFSET).emod 24)]
  else (tickA st now evs ids).sent

theorem process_calendar_run (SD : Int) (st : RState) (now : Int) (evs : List CalEvent)
    (ids : Nat → String) (h0 : ¬ now < SD) :
    process_calendar SD st now evs ids =
      ((tickA st now evs ids).st.announced.map Prod.fst).foldl (processRecord now)
        ⟨(tickA st now evs ids).st, tickSent1 st now evs ids, none⟩ := by
  unfold process_calendar tickSent1 tickA
  rw [if_neg h0]

theorem ifCheck_announced (st : RState) (b : Bool) (h : Int) :
    ((if b then { st with checked_hour := some h } else st) : RState).announced =
      st.announced := by
  cases b <;> rfl

theorem tickA_eq (st : RState) (now : Int) (evs : List CalEvent) (ids : Nat → String) :
    tickA st now evs ids =
      annLoop now (hourOf (now + 3600)) ids (get_pending_tutor_cals now evs)
        ⟨(if decide (60 - minuteOf now < MINUTES_NOUSERS) then
            { st with checked_hour := some (hourOf (now + 3600)) } else st),
         (decide (60 - minuteOf now < MINUTES_NOUSERS) &&
           (decide (st.checked_hour ≠ some (hourOf (now + 3600))) &&
             is_checked_hour (hourOf (now + 3600)))), 0, []⟩ := rfl

theorem countAnn_tickSent1 (st : RState) (now : Int) (evs : List CalEvent)
    (ids : Nat → String) (c : String) :
    countAnn (tickSent1 st now evs ids) c = countAnn (tickA st now evs ids).sent c := by
  unfold tickSent1
  split
  · rw [countAnn_append]; simp
  · rfl

theorem announce_skip_tick (SD2 : Int) (st2 : RState) (now2 : Int) (evs2 : List CalEvent)
    (ids2 : Nat → String) (c : String) (hsome : (lookupA st2.announced c).isSome) :
    countAnn (process_calendar SD2 st2 now2 evs2 ids2).sent c = 0 := by
  by_cases hsd : now2 < SD2
  · have hrun : process_calendar SD2 st2 now2 evs2 ids2 = ⟨st2, [], none⟩ := by
      unfold process_calendar; rw [if_pos hsd]
    rw [hrun]
    rfl
  · rw [process_calendar_run SD2 st2 now2 evs2 ids2 hsd, recordLoop_countAnn]
    show countAnn (tickSent1 st2 now2 evs2 ids2) c = 0
    rw [countAnn_tickSent1, tickA_eq]
    have hsome2 : (lookupA ((if decide (60 - minuteOf now2 < MINUTES_NOUSERS) then
        { st2 with checked_hour := some (hourOf (now2 + 3600)) } else st2) :
          RState).announced c).isSome := by
      rw [ifCheck_announced]; exact hsome
    obtain ⟨-, hcnt⟩ := annLoop_preserves_existing now2 (hourOf (now2 + 3600)) ids2
      (get_pending_tutor_cals now2 evs2)
      ⟨(if decide (60 - minuteOf now2 < MINUTES_NOUSERS) then
          { st2 with checked_hour := some (hourOf (now2 + 3600)) } else st2),
       (decide (60 - minuteOf now2 < MINUTES_NOUSERS) &&
         (decide (st2.checked_hour ≠ some (hourOf (now2 + 3600))) &&
           is_checked_hour (hourOf (now2 + 3600)))), 0, []⟩ c hsome2
    rw [hcnt]
    rfl

/-- Claim C2: feeding the same future calendar event (same ShiftIdentity:
start plus summary; the uid plays no role) to the poll tick while it is
inside the notify window announces it exactly once and creates one
ShiftRecord; any later tick, from any state in which a record for that
identity exists, announces it zero times. -/
theorem announce_once (SD : Int) (st : RState) (now : Int) (evs : List CalEvent)
    (ids : Nat → String) (ev : CalEvent)
    (h0 : ¬ now < SD) (h1 : ev ∈ evs) (h2 : now < ev.start)
    (h3 : ev.start - now < 60 * MINUTES_NOTIFY)
    (h5 : lookupA st.announced (calidOf ev) = none)
    (h6 : ∀ ev2 ∈ evs, calidOf ev2 = calidOf ev → ¬ ev2.end_ < now) :
    countAnn (process_calendar SD st now evs ids).sent (calidOf ev) = 1
    ∧ (∃ e, lookupA (process_calendar SD st now evs ids).st.announced (calidOf ev) = some e
        ∧ e.acked = false)
    ∧ (∀ SD2 st2 now2 evs2 ids2, (lookupA st2.announced (calidOf ev)).isSome →
        countAnn (process_calendar SD2 st2 now2 evs2 ids2).sent (calidOf ev) = 0) := by
  have hsort := (pending_perm_sorted now evs).2
  have hmem : ev ∈ get_pending_tutor_cals now evs := by
    rw [(pending_perm_sorted now evs).1.mem_iff]
    exact List.mem_filter.mpr ⟨h1, by simp [h2]⟩
  have h5b : lookupA ((if decide (60 - minuteOf now < MINUTES_NOUSERS) then
      { st with checked_hour := some (hourOf (now + 3600)) } else st) :
        RState).announced (calidOf ev) = none := by
    rw [ifCheck_announced]; exact h5
  obtain ⟨hcnt, e, hle, hea, hem, hec⟩ :=
    annLoop_announces_once now (hourOf (now + 3600)) ids (get_pending_tutor_cals now evs)
      ⟨(if decide (60 - minuteOf now < MINUTES_NOUSERS) then
          { st with checked_hour := some (hourOf (now + 3600)) } else st),
       (decide (60 - minuteOf now < MINUTES_NOUSERS) &&
         (decide (st.checked_hour ≠ some (hourOf (now + 3600))) &&
           is_checked_hour (hourOf (now + 3600)))), 0, []⟩
      (calidOf ev) h5b hsort ⟨ev, hmem, rfl, h3⟩
  have hcntA : countAnn (tickA st now evs ids).sent (calidOf ev) = 1 := by
    rw [tickA_eq]
    rw [hcnt]
    rfl
  have hleA : lookupA (tickA st now evs ids).st.announced (calidOf ev) = some e := by
    rw [tickA_eq]; exact hle
  have hecal : e.cal ∈ evs := by
    have := (pending_perm_sorted now evs).1.mem_iff.mp hem
    exact (List.mem_filter.mp this).1
  have hnexp : ¬ e.cal.end_ < now := h6 e.cal hecal hec
  refine ⟨?_, ?_, ?_⟩
  · rw [process_calendar_run SD st now evs ids h0, recordLoop_countAnn]
    show countAnn (tickSent1 st now evs ids) (calidOf ev) = 1
    rw [countAnn_tickSent1]
    exact hcntA
  · refine ⟨e, ?_, hea⟩
    rw [process_calendar_run SD st now evs ids h0]
    exact recordLoop_preserves_record now _ _ (calidOf ev) e hleA hnexp
  · intro SD2 st2 now2 evs2 ids2 hsome
    exact announce_skip_tick SD2 st2 now2 evs2 ids2 (calidOf ev) hsome

/-- Claim C3 (amended): under the coverage precheck conditions (fewer than
`MINUTES_NOUSERS` minutes remain in the hour, the next hour is in the active
window and has not been checked yet), the poll tick emits a coverage warning
iff NO event among the scanned prefix of the pending list — the events up to
and including the first one at least `MINUTES_NOTIFY` minutes away — starts
in that next hour.  Pending events beyond the scan `break` cannot suppress
the warning. -/
theorem coverage_warning_iff (SD : Int) (st : RState) (now : Int) (evs : List CalEvent)
    (ids : Nat → String)
    (h0 : ¬ now < SD)
    (h1 : 60 - minuteOf now < MINUTES_NOUSERS)
    (h2 : st.checked_hour ≠ some (hourOf (now + 3600)))
    (h3 : is_checked_hour (hourOf (now + 3600)) = true) :
    (∃ h, Sent.coverage h ∈ (process_calendar SD st now evs ids).sent) ↔
      ¬ ∃ ev ∈ scannedInit now (get_pending_tutor_cals now evs),
          hourOf ev.start = hourOf (now + 3600) := by
  have hnf : (decide (60 - minuteOf now < MINUTES_NOUSERS) &&
      (decide (st.checked_hour ≠ some (hourOf (now + 3600))) &&
        is_checked_hour (hourOf (now + 3600)))) = true := by
    simp [h1, h2, h3]
  have hnotify : (tickA st now evs ids).notify =
      decide (∀ ev ∈ scannedInit now (get_pending_tutor_cals now evs),
        hourOf ev.start ≠ hourOf (now + 3600)) := by
    rw [tickA_eq, annLoop_notify_eq]
    dsimp only
    rw [hnf, Bool.true_and]
  rw [process_calendar_run SD st now evs ids h0]
  obtain ⟨extra, hext, hesc⟩ := recordLoop_sent_extends now
    ((tickA st now evs ids).st.announced.map Prod.fst)
    ⟨(tickA st now evs ids).st, tickSent1 st now evs ids, none⟩
  by_cases hq : ∀ ev ∈ scannedInit now (get_pending_tutor_cals now evs),
      hourOf ev.start ≠ hourOf (now + 3600)
  · have hn : (tickA st now evs ids).notify = true := by
      rw [hnotify]; exact decide_eq_true hq
    have hts : tickSent1 st now evs ids = (tickA st now evs ids).sent ++
        [Sent.coverage (((tickA st now evs ids).st.checked_hour.getD 0 +
          CHALLENGE_TIME_OFFSET).emod 24)] := by
      unfold tickSent1; rw [if_pos hn]
    constructor
    · intro _
      simpa using hq
    · intro _
      refine ⟨((tickA st now evs ids).st.checked_hour.getD 0 +
          CHALLENGE_TIME_OFFSET).emod 24, ?_⟩
      rw [hext]
      show Sent.coverage _ ∈ tickSent1 st now evs ids ++ extra
      rw [hts]
      simp
  · have hn : (tickA st now evs ids).notify = false := by
      rw [hnotify]; exact decide_eq_false hq
    have hts : tickSent1 st now evs ids = (tickA st now evs ids).sent := by
      unfold tickSent1
      rw [if_neg (by rw [hn]; simp)]
    constructor
    · rintro ⟨h, hmem⟩
      exfalso
      rw [hext] at hmem
      have hmem2 : Sent.coverage h ∈ tickSent1 st now evs ids ++ extra := hmem
      rw [hts] at hmem2
      rcases List.mem_append.mp hmem2 with hm | hm
      · have := annLoop_sent_announces now (hourOf (now + 3600)) ids
          (get_pending_tutor_cals now evs)
          ⟨(if decide (60 - minuteOf now < MINUTES_NOUSERS) then
              { st with checked_hour := some (hourOf (now + 3600)) } else st),
           (decide (60 - minuteOf now < MINUTES_NOUSERS) &&
             (decide (st.checked_hour ≠ some (hourOf (now + 3600))) &&
               is_checked_hour (hourOf (now + 3600)))), 0, []⟩
          (Sent.coverage h) (by rw [← tickA_eq]; exact hm)
        rcases this with hin | ⟨c2, sid, nm, heq⟩
        · simp at hin
        · simp at heq
      · obtain ⟨m, hm2⟩ := hesc _ hm
        simp at hm2
    · intro hr
      push_neg at hq
      exact absurd hq (by simpa using hr)

theorem processRecord_noop_unwatched (now : Int) (acc : TickResult) (cid : String)
    (e : AnnEntry) (he : acc.err = none) (hl : lookupA acc.st.announced cid = some e)
    (hne : ¬ e.cal.end_ < now) (hack : e.acked = false)
    (hw : acc.st.watch e.msgid = none) :
    processRecord now acc cid = acc := by
  have he2 : ¬ acc.err.isSome = true := by rw [he]; simp
  unfold processRecord
  rw [if_neg he2, hl]
  dsimp only
  rw [if_neg hne, if_neg (by rw [hack]; simp), hw]

/-- Claim C4 (amended): for a not-yet-expired announced shift (`¬ end <
now`; an expired one is removed by the expiry step of the same pass without
a ping), the tick's per-record pass escalates — sends the "no response"
ping and deletes the WatchedMessage — exactly when the record is
unacknowledged, its WatchedMessage still exists, and time-to-start is at or
below `MINUTES_DANGER` minutes (already-started shifts included); an
acknowledged or unwatched record, or one above the threshold, is left
untouched, and re-running the pass after an escalation is a no-op, so the
ping fires at most once. -/
theorem escalation_step_spec (now : Int) (acc : TickResult) (cid : String) (e : AnnEntry)
    (he : acc.err = none)
    (hl : lookupA acc.st.announced cid = some e)
    (hne : ¬ e.cal.end_ < now) :
    (e.acked = true → processRecord now acc cid = acc)
    ∧ (acc.st.watch e.msgid = none → processRecord now acc cid = acc)
    ∧ (∀ w, e.acked = false → acc.st.watch e.msgid = some w →
        60 * MINUTES_DANGER < e.cal.start - now → processRecord now acc cid = acc)
    ∧ (∀ w, e.acked = false → acc.st.watch e.msgid = some w →
        ¬ 60 * MINUTES_DANGER < e.cal.start - now →
        (processRecord now acc cid).sent = acc.sent ++ [Sent.escalate e.msgid]
        ∧ (processRecord now acc cid).st.watch e.msgid = none
        ∧ (∀ k, k ≠ e.msgid → (processRecord now acc cid).st.watch k = acc.st.watch k)
        ∧ (processRecord now acc cid).st.announced = acc.st.announced
        ∧ (processRecord now acc cid).err = none
        ∧ processRecord now (processRecord now acc cid) cid = processRecord now acc cid) := by
  have he2 : ¬ acc.err.isSome = true := by rw [he]; simp
  refine ⟨?_, ?_, ?_, ?_⟩
  · intro hack
    unfold processRecord
    rw [if_neg he2, hl]
    dsimp only
    rw [if_neg hne, if_pos hack]
  · intro hw
    unfold processRecord
    rw [if_neg he2, hl]
    dsimp only
    rw [if_neg hne]
    by_cases hack : e.acked = true
    · rw [if_pos hack]
    · rw [if_neg hack, hw]
  · intro w hack hw hd
    unfold processRecord
    rw [if_neg he2, hl]
    dsimp only
    rw [if_neg hne, if_neg (by rw [hack]; simp), hw]
    dsimp only
    rw [if_pos hd]
  · intro w hack hw hd
    have hR : processRecord now acc cid =
        ⟨{ acc.st with watch := fun k => if k = e.msgid then none else acc.st.watch k },
         acc.sent ++ [Sent.escalate e.msgid], none⟩ := by
      unfold processRecord
      rw [if_neg he2, hl]
      dsimp only
      rw [if_neg hne, if_neg (by rw [hack]; simp), hw]
      dsimp only
      rw [if_neg hd]
    refine ⟨by rw [hR], by rw [hR]; simp, ?_, by rw [hR], by rw [hR], ?_⟩
    · intro k hk
      rw [hR]
      simp [hk]
    · rw [hR]
      exact processRecord_noop_unwatched now _ cid e rfl hl hne hack (by simp)

/-- An empty bot state (fresh start, nothing watched or announced). -/
def emptyRS : RState :=
  ⟨fun _ => none, fun _ => none, [], none, fun _ => none⟩

/-- A state holding one ACKED shift record whose WatchedMessage was already
removed by the acknowledgment handler, with the shift's end in the past. -/
def stC1x : RState :=
  ⟨fun _ => none, fun _ => none,
   [("c1", AnnEntry.mk (CalEvent.mk 100 200 "x" "-1") "m1" true)], none, fun _ => none⟩

/-- Claim C1 (exhibiting the code bug): expiring a ShiftRecord whose
WatchedMessage is already gone (here: removed by a prior acknowledgment) is
NOT a no-op — the bare `del msg_id_to_watch[msgid]` raises `KeyError` and
the tick aborts instead of completing, contradicting the spec's required
defensive invariant.  The record itself was deleted before the raise. -/
theorem expiry_keyerror_on_missing_watch :
    lookupA stC1x.announced "c1" =
      some (AnnEntry.mk (CalEvent.mk 100 200 "x" "-1") "m1" true)
    ∧ stC1x.watch "m1" = none
    ∧ ((100 : Int) < 3600 ∧ (200 : Int) < 3600)
    ∧ (process_calendar 0 stC1x 3600 [] (fun _ => "")).err = some PyErr.keyError
    ∧ lookupA (process_calendar 0 stC1x 3600 [] (fun _ => "")).st.announced "c1" = none
    ∧ (process_calendar 0 stC1x 3600 [] (fun _ => "")).sent = [] := by
  refine ⟨by decide, rfl, by decide, by decide, by decide, by decide⟩

/-- A state holding one announced, unacknowledged, still-watched shift
whose END time is already in the past. -/
def stC4x : RState :=
  ⟨fun _ => none,
   fun k => if k = "mx" then some (WatchEntry.mk (some "Ann") "cx") else none,
   [("cx", AnnEntry.mk (CalEvent.mk 1000 2000 "s" "-1") "mx" false)], none, fun _ => none⟩

/-- Counterexample to claim C4 as stated: at a tick where the unacknowledged
shift is still watched and time-to-start is (far) below the danger
threshold but the shift has already ENDED, the tick sends NO escalation
ping — the expiry step removes the record and the watch first. -/
theorem escalation_expired_counterexample :
    (∃ e, lookupA stC4x.announced "cx" = some e ∧ e.acked = false
      ∧ ¬ 60 * MINUTES_DANGER < e.cal.start - 3600)
    ∧ (stC4x.watch "mx").isSome
    ∧ (process_calendar 0 stC4x 3600 [] (fun _ => "")).sent = []
    ∧ (process_calendar 0 stC4x 3600 [] (fun _ => "")).st.watch "mx" = none := by
  refine ⟨⟨AnnEntry.mk (CalEvent.mk 1000 2000 "s" "-1") "mx" false,
    by decide, rfl, by decide⟩, by decide, by decide, by decide⟩

/-- A state holding one announced, unacknowledged, still-watched shift that
has not yet ended. -/
def stW4 : RState :=
  ⟨fun _ => none,
   fun k => if k = "mw" then some (WatchEntry.mk (some "Ann") "cw") else none,
   [("cw", AnnEntry.mk (CalEvent.mk 5000 9000 "s" "-1") "mw" false)], none, fun _ => none⟩

/-- Witness for `escalation_step_spec`: a shift starting in 20 seconds
(inside the danger threshold) is escalated and its watch removed. -/
theorem escalation_step_spec_witness :
    (processRecord 4980 ⟨stW4, [], none⟩ "cw").sent = [] ++ [Sent.escalate "mw"]
    ∧ (processRecord 4980 ⟨stW4, [], none⟩ "cw").st.watch "mw" = none :=
  ⟨((escalation_step_spec 4980 ⟨stW4, [], none⟩ "cw"
      (AnnEntry.mk (CalEvent.mk 5000 9000 "s" "-1") "mw" false) rfl (by decide)
      (by decide)).2.2.2 (WatchEntry.mk (some "Ann") "cw") rfl rfl (by decide)).1,
   ((escalation_step_spec 4980 ⟨stW4, [], none⟩ "cw"
      (AnnEntry.mk (CalEvent.mk 5000 9000 "s" "-1") "mw" false) rfl (by decide)
      (by decide)).2.2.2 (WatchEntry.mk (some "Ann") "cw") rfl rfl (by decide)).2.1⟩

/-- An event at 05:56 UTC (15 minutes after the counterexample tick time:
beyond the notify window, so the scan breaks on it). -/
def evC3a : CalEvent := ⟨21360, 21460, "s1", "-1"⟩

/-- An event at 06:05 UTC, i.e. starting in the checked next hour. -/
def evC3b : CalEvent := ⟨21900, 25500, "s2", "-1"⟩

/-- Counterexample to claim C3 as stated: at 05:41 UTC the precheck
conditions hold, the pending event `evC3b` starts in the checked next hour
(hour 6), yet the tick still emits the coverage warning, because the scan
breaks at `evC3a` (15 minutes away) before reaching `evC3b`. -/
theorem coverage_pending_counterexample :
    (60 - minuteOf 20460 < MINUTES_NOUSERS)
    ∧ is_checked_hour (hourOf (20460 + 3600)) = true
    ∧ (∃ ev ∈ get_pending_tutor_cals 20460 [evC3a, evC3b],
        hourOf ev.start = hourOf (20460 + 3600))
    ∧ (∃ h, Sent.coverage h ∈
        (process_calendar 0 emptyRS 20460 [evC3a, evC3b] (fun _ => "")).sent) := by
  refine ⟨by decide, by decide, ⟨evC3b, by decide, by decide⟩, ⟨16, by decide⟩⟩

/-- Witness for `coverage_warning_iff`: with only `evC3b` pending it falls
inside the scanned prefix, so the warning is suppressed. -/
theorem coverage_warning_iff_witness :
    ¬ ∃ h, Sent.coverage h ∈
      (process_calendar 0 emptyRS 20460 [evC3b] (fun _ => "")).sent := by
  intro hcov
  have hmatch := (coverage_warning_iff 0 emptyRS 20460 [evC3b] (fun _ => "")
    (by decide) (by decide) (by decide) (by decide)).mp hcov
  exact hmatch ⟨evC3b, by decide, by decide⟩

/-- An event five minutes in the future of the witness tick time, with a
parenthesised name in its summary. -/
def evC2 : CalEvent := ⟨21000, 24600, "Tut (Ann)", "-1"⟩

/-- Witness for `announce_once`: the event is announced exactly once. -/
theorem announce_once_witness :
    countAnn (process_calendar 0 emptyRS 20700 [evC2] (fun _ => "100")).sent
      (calidOf evC2) = 1 :=
  (announce_once 0 emptyRS 20700 [evC2] (fun _ => "100") evC2 (by decide) (by decide)
    (by decide) (by decide) rfl (by decide)).1
